import Mathlib

/-!
Verification development for the web-crawler subsystem of the repository
(`system-design/web-crawler/crawler/*.py`).

The Python components are shallowly embedded as pure Lean functions:
time stamps (`datetime.now()`, `total_seconds()`) are integers, byte
bodies are `String`s (the inputs examined here are ASCII, so `len` of a
chunk is its character count), SQLite tables are lists of rows with
insert/replace/ignore semantics spelled out, and the nondeterministic
outside world (HTTP responses, HTML parse results, robots.txt parses)
is passed in as an explicit outcome value.  `sha256` digests are modelled
by an injective tagging function, which preserves exactly the property
the storage layer relies on (equal inputs collide, distinct inputs do
not).
-/

set_option autoImplicit false

namespace Crawler

/-- Wall-clock time in seconds, modelling `datetime` values
(`total_seconds()` differences; integer seconds suffice for every claim
examined here). -/
abbrev Time := ℤ

/-- `CrawlerConfig` from `config.py` (the fields the crawler logic reads). -/
structure CrawlerConfig where
  max_depth : Nat := 3
  max_pages : Nat := 1000
  max_concurrent_requests : Nat := 10
  request_delay : Time := 1
  allowed_domains : Option (List String) := none
  blocked_domains : List String := []
  max_url_length : Nat := 2048
  respect_robots_txt : Bool := true
  user_agent : String := "WebCrawler/1.0 (+https://example.com/bot)"
  allowed_content_types : List String := ["text/html", "application/xhtml+xml"]
  max_file_size : Nat := 10485760
  deriving DecidableEq, Repr

/-- `CrawlStatus` from `models.py`. -/
inductive CrawlStatus where
  | pending
  | in_progress
  | success
  | failed
  | robots_denied
  | filtered
  deriving DecidableEq, Repr

/-- `UrlInfo` from `models.py`. -/
structure UrlInfo where
  url : String
  depth : Nat
  parent_url : Option String := none
  priority : Int := 0
  discovered_at : Time := 0
  deriving DecidableEq, Repr

/-- `CrawledPage` from `models.py` (the `headers` dict and `crawled_at`
stamp are not modelled; no claim depends on them). -/
structure CrawledPage where
  url : String
  status_code : Nat
  content_type : String
  content : String
  title : Option String := none
  links : List String := []
  images : List String := []
  meta_description : Option String := none
  meta_keywords : Option String := none
  parent_url : Option String := none
  depth : Nat := 0
  file_size : Nat := 0
  deriving DecidableEq, Repr

/-- `CrawlResult` from `models.py` (`processing_time` and `retries` are
wall-clock bookkeeping, not modelled). -/
structure CrawlResult where
  url : String
  status : CrawlStatus
  page : Option CrawledPage := none
  error_message : Option String := none
  deriving DecidableEq, Repr

/-- `RobotsTxtInfo` from `models.py`. -/
structure RobotsTxtInfo where
  domain : String
  can_fetch : Bool
  crawl_delay : Option Time := none
  sitemap_urls : List String := []
  last_fetched : Time := 0
  deriving DecidableEq, Repr

/-! ### Association-list helpers

Python dicts preserve insertion order; they are modelled as association
lists scanned front to back. -/

/-- Lookup in an ordered association list (`dict.get`). -/
def alookup {α : Type} : List (String × α) → String → Option α
  | [], _ => none
  | (k', v) :: rest, k => if k' = k then some v else alookup rest k

/-- Ordered-association-list update (`dict[k] = v`): overwrite in place,
or append a fresh key at the end, as Python dicts do. -/
def aupdate {α : Type} : List (String × α) → String → α → List (String × α)
  | [], k, v => [(k, v)]
  | (k', v') :: rest, k, v =>
    if k' = k then (k', v) :: rest else (k', v') :: aupdate rest k v

/-! ### URL parsing helpers

`urlparse(url).netloc` for the absolute URLs the crawler handles: the
authority is the text between the first `"://"` and the next `/`, `?`
or `#`.  `urlparse` itself does not raise on these inputs, so the
`try/except` around it in the source is inert. -/

/-- `str.lower()` (the crawler's URL and header inputs are ASCII). -/
def strLower (s : String) : String := ⟨s.data.map Char.toLower⟩

/-- `str.strip()` on the header fields the fetcher trims (their
whitespace is plain spaces). -/
def strTrim (s : String) : String :=
  ⟨((s.data.dropWhile (fun c => c == ' ')).reverse.dropWhile
      (fun c => c == ' ')).reverse⟩

/-- Split a character list at the first occurrence of `sep`: the text
before it and the text after it, or `none` when `sep` does not occur. -/
def subFind (sep : List Char) : List Char → Option (List Char × List Char)
  | [] => none
  | c :: rest =>
    if sep.isPrefixOf (c :: rest) then some ([], (c :: rest).drop sep.length)
    else
      match subFind sep rest with
      | none => none
      | some (pre, post) => some (c :: pre, post)

/-- Characters of the authority component: stop at `/`, `?` or `#`. -/
def takeNetloc (s : List Char) : List Char :=
  s.takeWhile (fun c => c != '/' && c != '?' && c != '#')

/-- `urlparse(url).netloc` for scheme-qualified URLs; `""` when the URL
has no `//`-introduced authority. -/
def netlocOf (url : String) : String :=
  match subFind "://".data url.data with
  | some (_, rest) => ⟨takeNetloc rest⟩
  | none =>
    if "//".data.isPrefixOf url.data then ⟨takeNetloc (url.data.drop 2)⟩
    else ""

/-- `urlparse(url).scheme` for scheme-qualified URLs (enough to model the
`parsed_url.scheme and parsed_url.netloc` validity check in `fetcher.py`). -/
def schemeOf (url : String) : String :=
  match subFind "://".data url.data with
  | some (s, _) => ⟨s⟩
  | none => ""

/-- `UrlFrontier._extract_domain` / `RobotsHandler._extract_domain`:
`urlparse(url).netloc.lower()`, with the empty netloc read as a falsy
`None` by every caller. -/
def extract_domain (url : String) : Option String :=
  let d := strLower (netlocOf url)
  if d = "" then none else some d

/-! ### UrlFrontier (`url_frontier.py`) -/

/-- A row of the frontier's `url_queue` SQLite table. -/
structure DbRecord where
  url : String
  domain : String
  depth : Nat
  priority : Int
  parent_url : Option String
  discovered_at : Time
  status : CrawlStatus
  deriving DecidableEq, Repr

/-- In-memory plus persisted state of `UrlFrontier`. Each domain queue is
a deque whose head is the left end (`popleft` pops the head, `append`
pushes at the tail). -/
structure FrontierState where
  domain_queues : List (String × List UrlInfo) := []
  last_access_time : List (String × Time) := []
  seen_urls : List String := []
  total_urls : Int := 0
  db : List DbRecord := []
  deriving DecidableEq, Repr

/-- The frontier state right after `initialize()` on a fresh database. -/
def frontierInit : FrontierState := {}

/-- `self.domain_queues[domain].append(url_info)`: `defaultdict` access
creates a fresh key at the end of the dict when absent. -/
def appendToQueue : List (String × List UrlInfo) → String → UrlInfo →
    List (String × List UrlInfo)
  | [], d, u => [(d, [u])]
  | (d', q) :: rest, d, u =>
    if d' = d then (d', q ++ [u]) :: rest
    else (d', q) :: appendToQueue rest d u

/-- `INSERT OR IGNORE INTO url_queue` with `url` UNIQUE: skip when a row
with the same url exists, else append (status defaults to `'pending'`). -/
def dbInsertOrIgnore (db : List DbRecord) (r : DbRecord) : List DbRecord :=
  if db.any (fun x => decide (x.url = r.url)) then db else db ++ [r]

/-- `UPDATE url_queue SET status = ? WHERE url = ?`. -/
def dbSetStatus (db : List DbRecord) (url : String) (st : CrawlStatus) :
    List DbRecord :=
  db.map (fun r => if r.url = url then { r with status := st } else r)

/-- `UrlFrontier.add_url`: reject seen or domainless URLs, otherwise add
to the seen-set, append to the domain's deque, bump the counter and
persist the row as `pending`. -/
def add_url (s : FrontierState) (u : UrlInfo) : Bool × FrontierState :=
  if u.url ∈ s.seen_urls then (false, s)
  else
    match extract_domain u.url with
    | none => (false, s)
    | some d =>
      (true,
        { s with
          seen_urls := u.url :: s.seen_urls
          domain_queues := appendToQueue s.domain_queues d u
          total_urls := s.total_urls + 1
          db := dbInsertOrIgnore s.db
            ⟨u.url, d, u.depth, u.priority, u.parent_url, u.discovered_at,
              CrawlStatus.pending⟩ })

/-- The linear domain scan inside `UrlFrontier.get_next_url`: skip empty
queues, skip domains accessed less than `request_delay` seconds ago
(`time_since_last < self.config.request_delay`), and pop the left end of
the first eligible queue.  Returns the popped entry, its domain, and the
queues with that one entry removed. -/
def scanQueues (delay : Time) (last : List (String × Time)) (now : Time) :
    List (String × List UrlInfo) →
      Option (UrlInfo × String × List (String × List UrlInfo))
  | [] => none
  | (d, q) :: rest =>
    match q with
    | [] =>
      match scanQueues delay last now rest with
      | none => none
      | some (u, d', rest') => some (u, d', (d, q) :: rest')
    | u :: q' =>
      let eligible :=
        match alookup last d with
        | none => true
        | some t => decide (now - t ≥ delay)
      if eligible then some (u, d, (d, q') :: rest)
      else
        match scanQueues delay last now rest with
        | none => none
        | some (v, d', rest') => some (v, d', (d, u :: q') :: rest')

/-- `UrlFrontier.get_next_url`, also exposing the domain the URL was
dequeued from (the source logs it; the politeness trace needs it). -/
def get_next_url_dom (cfg : CrawlerConfig) (s : FrontierState) (now : Time) :
    Option (UrlInfo × String) × FrontierState :=
  match scanQueues cfg.request_delay s.last_access_time now s.domain_queues with
  | none => (none, s)
  | some (u, d, queues') =>
    (some (u, d),
      { s with
        domain_queues := queues'
        last_access_time := aupdate s.last_access_time d now
        total_urls := s.total_urls - 1
        db := dbSetStatus s.db u.url CrawlStatus.in_progress })

/-- `UrlFrontier.get_next_url`: pop the head of the first eligible
domain queue, stamp `last_access_time[domain] = now`, and mark the row
`in_progress`. -/
def get_next_url (cfg : CrawlerConfig) (s : FrontierState) (now : Time) :
    Option UrlInfo × FrontierState :=
  let (o, s') := get_next_url_dom cfg s now
  (o.map Prod.fst, s')

/-- `UrlFrontier.mark_completed`. -/
def mark_completed (s : FrontierState) (url : String) (ok : Bool) :
    FrontierState :=
  let st := if ok then CrawlStatus.success else CrawlStatus.failed
  { s with db := dbSetStatus s.db url st }

/-! ### Frontier runs and the politeness trace -/

/-- One externally triggered frontier operation: an `add_url` call, or a
`get_next_url` call at wall-clock time `now`. -/
inductive FrontierOp where
  | addOp (u : UrlInfo)
  | nextOp (now : Time)
  deriving DecidableEq, Repr

/-- Execute a sequence of frontier operations, recording for every
successful dequeue the domain it came from and the `now` stamp the call
used (the same value `get_next_url` writes into `last_access_time`). -/
def runOps (cfg : CrawlerConfig) :
    FrontierState → List FrontierOp → FrontierState × List (String × Time)
  | s, [] => (s, [])
  | s, .addOp u :: rest => runOps cfg (add_url s u).2 rest
  | s, .nextOp t :: rest =>
    match get_next_url_dom cfg s t with
    | (some (_, d), s') =>
      let (sf, tr) := runOps cfg s' rest
      (sf, (d, t) :: tr)
    | (none, s') => runOps cfg s' rest

/-- The dequeue times of one domain, in trace order. -/
def domTimes (d : String) : List (String × Time) → List Time
  | [] => []
  | (d', t) :: rest =>
    if d' = d then t :: domTimes d rest else domTimes d rest

/-! ### RobotsHandler (`robots_handler.py`) -/

/-- Outcome of `RobotsHandler._parse_robots_txt` on a 200 body: either
the `RobotFileParser` results, or the handler's catch-all when parsing
raises. -/
inductive RobotsParseOutcome where
  | parsed (can : Bool) (delay : Option Time) (maps : List String)
  | parseFailure
  deriving DecidableEq, Repr

/-- Outcome of the HTTP GET for `https://{domain}/robots.txt`. -/
inductive RobotsFetchOutcome where
  | status200 (p : RobotsParseOutcome)
  | status404
  | otherStatus (code : Nat)
  | timeoutErr
  | connectErr
  deriving DecidableEq, Repr

/-- `RobotsHandler._fetch_robots_txt`: a 200 body is parsed (with a
fail-open catch-all), and 404, any other status, a timeout, or any other
exception all yield an allow-everything `RobotsTxtInfo`.  The Python
function never returns `None`. -/
def fetch_robots_txt (domain : String) (o : RobotsFetchOutcome) (now : Time) :
    RobotsTxtInfo :=
  match o with
  | .status200 (.parsed can delay maps) =>
    { domain := domain, can_fetch := can, crawl_delay := delay
      sitemap_urls := maps, last_fetched := now }
  | .status200 .parseFailure =>
    { domain := domain, can_fetch := true, last_fetched := now }
  | .status404 =>
    { domain := domain, can_fetch := true, last_fetched := now }
  | .otherStatus _ =>
    { domain := domain, can_fetch := true, last_fetched := now }
  | .timeoutErr =>
    { domain := domain, can_fetch := true, last_fetched := now }
  | .connectErr =>
    { domain := domain, can_fetch := true, last_fetched := now }

/-- The robots cache TTL: 24 hours, in seconds. -/
def cacheExpiry : Time := 86400

/-- `RobotsHandler._get_robots_info`: reuse a cache entry younger than
the TTL, otherwise (miss or expiry) fetch and cache the result. -/
def get_robots_info (cache : List (String × RobotsTxtInfo)) (domain : String)
    (o : RobotsFetchOutcome) (now : Time) :
    RobotsTxtInfo × List (String × RobotsTxtInfo) :=
  match alookup cache domain with
  | some info =>
    if now - info.last_fetched < cacheExpiry then (info, cache)
    else
      let fresh := fetch_robots_txt domain o now
      (fresh, aupdate cache domain fresh)
  | none =>
    let fresh := fetch_robots_txt domain o now
    (fresh, aupdate cache domain fresh)

/-- `RobotsHandler.can_fetch`: always `true` without touching the cache
when `respect_robots_txt` is off; `false` for domainless URLs; otherwise
the cached/fetched policy's `can_fetch` flag. -/
def can_fetch (cfg : CrawlerConfig) (cache : List (String × RobotsTxtInfo))
    (url : String) (o : RobotsFetchOutcome) (now : Time) :
    Bool × List (String × RobotsTxtInfo) :=
  if cfg.respect_robots_txt = false then (true, cache)
  else
    match extract_domain url with
    | none => (false, cache)
    | some d =>
      let (info, cache') := get_robots_info cache d o now
      (info.can_fetch, cache')

/-- `RobotsHandler.get_crawl_delay`: `max(robots crawl-delay,
request_delay)` when the policy declares a truthy (non-`None`, non-zero)
crawl-delay, else `request_delay`.  `info` is the `_get_robots_info`
result for the URL's domain. -/
def get_crawl_delay (cfg : CrawlerConfig) (url : String)
    (info : Option RobotsTxtInfo) : Time :=
  if cfg.respect_robots_txt = false then cfg.request_delay
  else
    match extract_domain url with
    | none => cfg.request_delay
    | some _ =>
      match info with
      | some i =>
        match i.crawl_delay with
        | some cd => if cd ≠ 0 then max cd cfg.request_delay
                     else cfg.request_delay
        | none => cfg.request_delay
      | none => cfg.request_delay

/-! ### Fetcher (`fetcher.py`)

The HTTP exchange is passed in as a `RequestOutcome`; a response body is
the list of chunks `response.content.iter_chunked(8192)` yields, and the
charset decode step is modelled as the identity on the (ASCII) body. -/

/-- The response data `Fetcher.fetch` inspects. -/
structure HttpResponse where
  status : Nat
  content_type : Option String := none
  content_length : Option Nat := none
  location : Option String := none
  chunks : List String := []
  deriving DecidableEq, Repr

/-- The `self._session.get(url)` call: a response, or one of the
exception classes `fetch` catches. -/
inductive RequestOutcome where
  | response (r : HttpResponse)
  | timeoutErr
  | clientErr (msg : String)
  | otherErr (msg : String)
  deriving DecidableEq, Repr

/-- Text before the first `;` of a header value. -/
def firstSemiField (s : String) : String :=
  ⟨s.data.takeWhile (fun c => c != ';')⟩

/-- `Fetcher._is_allowed_content_type`: falsy content type is rejected;
otherwise the `;`-stripped, trimmed, lowered media type must be in
`allowed_content_types`. -/
def is_allowed_content_type (cfg : CrawlerConfig) (ct : String) : Bool :=
  if ct = "" then false
  else cfg.allowed_content_types.contains (strLower (strTrim (firstSemiField ct)))

/-- The chunk loop of `Fetcher._read_content_safely`: count each chunk
before keeping it and return `none` the moment the running total passes
`maxSize`, leaving the remaining chunks unread. -/
def read_chunks (maxSize : Nat) (acc : Nat) : List String → Option (List String)
  | [] => some []
  | c :: rest =>
    if acc + c.length > maxSize then none
    else
      match read_chunks maxSize (acc + c.length) rest with
      | none => none
      | some cs => some (c :: cs)

/-- `Fetcher._read_content_safely`: stream the chunks under the size cap
and join them (the decode-with-fallback step never fails and is modelled
as the identity). -/
def read_content_safely (cfg : CrawlerConfig) (r : HttpResponse) :
    Option String :=
  match read_chunks cfg.max_file_size 0 r.chunks with
  | none => none
  | some cs => some (cs.foldl (fun a c => a ++ c) "")

/-- `if not parsed_url.scheme or not parsed_url.netloc` in `fetch`. -/
def urlIsValid (url : String) : Bool :=
  schemeOf url != "" && netlocOf url != ""

/-- The status-code dispatch at the tail of `Fetcher.fetch`.  The Python
`if/elif` chain has no branch for a redirect status whose response lacks
a `location` header: control falls off the end of the function, which
returns `None`; that is the `none` case here. -/
def fetchStatusDispatch (cfg : CrawlerConfig) (url : String) (depth : Nat)
    (parent_url : Option String) (r : HttpResponse) (ct : String) :
    Option CrawlResult :=
  if r.status = 200 then
    match read_content_safely cfg r with
    | none =>
      some { url := url, status := .failed
             error_message := some "Content too large or read error" }
    | some content =>
      some { url := url, status := .success
             page := some { url := url, status_code := r.status
                            content_type := strTrim (firstSemiField ct)
                            content := content, parent_url := parent_url
                            depth := depth, file_size := content.length }
             error_message := none }
  else if r.status ∈ [301, 302, 303, 307, 308] then
    match r.location with
    | some loc =>
      some { url := url, status := .failed
             error_message := some ("Redirect to " ++ loc) }
    | none => none
  else if r.status = 404 then
    some { url := url, status := .failed
           error_message := some "Page not found (404)" }
  else if r.status = 403 then
    some { url := url, status := .robots_denied
           error_message := some "Access forbidden (403)" }
  else if r.status = 429 then
    some { url := url, status := .failed
           error_message := some "Rate limited (429)" }
  else if r.status ≥ 500 then
    some { url := url, status := .failed
           error_message := some ("Server error (" ++ toString r.status ++ ")") }
  else
    some { url := url, status := .failed
           error_message := some ("Unexpected status code: " ++ toString r.status) }

/-- `Fetcher.fetch`: URL validation, then content-type and declared
`Content-Length` screening, then the status dispatch; timeouts and
client errors are caught and classified.  The Python value `None`
(reachable only through the redirect-without-location gap) is `none`. -/
def fetch (cfg : CrawlerConfig) (url : String) (depth : Nat)
    (parent_url : Option String) (o : RequestOutcome) : Option CrawlResult :=
  if urlIsValid url = false then
    some { url := url, status := .failed
           error_message := some "Invalid URL format" }
  else
    match o with
    | .timeoutErr =>
      some { url := url, status := .failed
             error_message := some "Request timeout" }
    | .clientErr m =>
      some { url := url, status := .failed
             error_message := some ("Client error: " ++ m) }
    | .otherErr m =>
      some { url := url, status := .failed
             error_message := some ("Unexpected error: " ++ m) }
    | .response r =>
      let ct := strLower (r.content_type.getD "")
      if is_allowed_content_type cfg ct = false then
        some { url := url, status := .filtered
               error_message := some ("Content type not allowed: " ++ ct) }
      else
        match r.content_length with
        | some n =>
          if n > cfg.max_file_size then
            some { url := url, status := .filtered
                   error_message := some ("File too large: " ++ toString n ++ " bytes") }
          else fetchStatusDispatch cfg url depth parent_url r ct
        | none => fetchStatusDispatch cfg url depth parent_url r ct

/-! ### Parser (`parser.py`)

`Parser.parse` wraps its whole body in `try/except`; every helper
(`_extract_title`, `_extract_meta_description`, `_extract_meta_keywords`,
`_extract_links`, `_extract_images`) catches its own exceptions, so an
exception that reaches `parse`'s handler is raised by the
`BeautifulSoup(page.content, 'lxml')` construction, before any field of
`page` has been assigned.  The handler swallows the exception and the
unmodified `page` is returned — `parse` is total. -/

/-- What the HTML library produced: extraction results, or an exception
reaching `parse`'s own handler. -/
inductive ParseOutcome where
  | parsed (title : Option String) (meta_description : Option String)
      (meta_keywords : Option String) (links : List String)
      (images : List String)
  | parseFailure
  deriving DecidableEq, Repr

/-- `Parser.parse`. -/
def parsePage (page : CrawledPage) (o : ParseOutcome) : CrawledPage :=
  match o with
  | .parsed t d k ls imgs =>
    { page with title := t, meta_description := d, meta_keywords := k
                links := ls, images := imgs }
  | .parseFailure => page

/-! ### Storage (`storage.py`)

`sha256(x).hexdigest()` (and its 16-hex-digit truncation for URLs) is
modelled by injective tagging: equal inputs get equal digests and — as
the collision-free intent of a cryptographic hash — distinct inputs get
distinct digests. -/

/-- `Storage._hash_url`. -/
def hash_url (url : String) : String := "u:" ++ url

/-- `Storage._hash_content`. -/
def hash_content (content : String) : String := "c:" ++ content

/-- A row of the `crawled_pages` SQLite table (`url` UNIQUE). -/
structure StoredRow where
  url : String
  url_hash : String
  domain : String
  title : Option String
  content_type : String
  status_code : Nat
  file_size : Nat
  content_hash : String
  parent_url : Option String
  depth : Nat
  links_count : Nat
  images_count : Nat
  content_file_path : String
  metadata_file_path : String
  deriving DecidableEq, Repr

/-- State of the storage component: the metadata table, the written
content blobs (`path ↦ bytes`), the written metadata sidecar files, the
`extracted_links` table, and the two counters. -/
structure StorageState where
  db : List StoredRow := []
  content_files : List (String × String) := []
  metadata_paths : List String := []
  link_edges : List (String × String) := []
  total_stored : Nat := 0
  duplicate_content : Nat := 0
  deriving DecidableEq, Repr

/-- `Storage._is_duplicate_content`: does any row carry this hash. -/
def is_duplicate_content (st : StorageState) (h : String) : Bool :=
  st.db.any (fun r => decide (r.content_hash = h))

/-- `INSERT OR REPLACE INTO crawled_pages` with `url` UNIQUE: drop any
row with the same url, then append the new one. -/
def dbInsertOrReplace (db : List StoredRow) (r : StoredRow) : List StoredRow :=
  db.filter (fun x => !decide (x.url = r.url)) ++ [r]

/-- The row `Storage._store_in_database` writes. -/
def mkStoredRow (page : CrawledPage) (url_hash content_hash cpath mpath : String) :
    StoredRow :=
  { url := page.url, url_hash := url_hash
    domain := strLower (netlocOf page.url)
    title := page.title, content_type := page.content_type
    status_code := page.status_code, file_size := page.file_size
    content_hash := content_hash, parent_url := page.parent_url
    depth := page.depth, links_count := page.links.length
    images_count := page.images.length
    content_file_path := cpath, metadata_file_path := mpath }

/-- `Storage._store_links`: one `extracted_links` row per page link (the
table has no UNIQUE constraint, so `INSERT OR IGNORE` always inserts). -/
def store_links (st : StorageState) (page : CrawledPage) : StorageState :=
  { st with link_edges := st.link_edges ++ page.links.map (fun l => (page.url, l)) }

/-- `Storage.store_page`: on a content-hash hit, bump the duplicate
counter and upsert a metadata-only row whose file paths are both `""`
(`_store_metadata_only`); otherwise write the content blob and metadata
file under the URL hash, upsert the full row, and count the store. -/
def store_page (st : StorageState) (page : CrawledPage) : Bool × StorageState :=
  let url_hash := hash_url page.url
  let content_hash := hash_content page.content
  if is_duplicate_content st content_hash then
    let row := mkStoredRow page url_hash content_hash "" ""
    let st1 := { st with duplicate_content := st.duplicate_content + 1 }
    let st2 := { st1 with db := dbInsertOrReplace st1.db row }
    (true, store_links st2 page)
  else
    let cpath := "content/" ++ url_hash ++ ".html"
    let mpath := "metadata/" ++ url_hash ++ ".json"
    let row := mkStoredRow page url_hash content_hash cpath mpath
    let st1 := { st with
                 content_files := aupdate st.content_files cpath page.content
                 metadata_paths := st.metadata_paths ++ [mpath] }
    let st2 := { st1 with db := dbInsertOrReplace st1.db row }
    let st3 := store_links st2 page
    (true, { st3 with total_stored := st3.total_stored + 1 })

/-! ### Orchestrator (`web_crawler.py`) -/

/-- The storage interaction of `WebCrawler._process_url`: only a
`SUCCESS` fetch result is parsed and stored; every other outcome leaves
the storage component untouched. -/
def process_storage (st : StorageState) (res : CrawlResult)
    (po : ParseOutcome) : StorageState :=
  if res.status = .success then
    match res.page with
    | some page => (store_page st (parsePage page po)).2
    | none => st
  else st

/-- `WebCrawler._add_discovered_links`: each link is enqueued at the
given depth with priority `max(0, 100 - depth * 10)`. -/
def add_discovered_links (s : FrontierState) (links : List String)
    (parent : String) (depth : Nat) (t : Time) : FrontierState :=
  links.foldl
    (fun st l =>
      (add_url st
        { url := l, depth := depth, parent_url := some parent
          priority := max 0 (100 - 10 * (depth : Int)), discovered_at := t }).2)
    s

/-- Frontier states reachable during a crawl (`WebCrawler.crawl` and
`_process_url`): seeds enter at depth 0 with priority 100; a processed
URL's links are enqueued at `depth + 1` only when `depth < max_depth`;
every dequeued URL is finally marked completed one way or the other. -/
inductive Reachable (cfg : CrawlerConfig) : FrontierState → Prop where
  | init : Reachable cfg frontierInit
  | seed (s : FrontierState) (url : String) (t : Time) :
      Reachable cfg s →
      Reachable cfg (add_url s
        { url := url, depth := 0, parent_url := none, priority := 100
          discovered_at := t }).2
  | stepSuccess (s s' : FrontierState) (tnext tlinks : Time)
      (links : List String) (u : UrlInfo)
      (hnext : get_next_url cfg s tnext = (some u, s')) :
      Reachable cfg s →
      Reachable cfg
        (mark_completed
          (if u.depth < cfg.max_depth
           then add_discovered_links s' links u.url (u.depth + 1) tlinks
           else s') u.url true)
  | stepFailure (s s' : FrontierState) (tnext : Time) (u : UrlInfo)
      (hnext : get_next_url cfg s tnext = (some u, s')) :
      Reachable cfg s →
      Reachable cfg (mark_completed s' u.url false)
  | stepIdle (s s' : FrontierState) (tnext : Time)
      (hnext : get_next_url cfg s tnext = (none, s')) :
      Reachable cfg s →
      Reachable cfg s'

/-- The depth invariant of claim C4: every queued `UrlInfo` and every
persisted frontier row stays within the depth bound. -/
def depthBounded (s : FrontierState) (k : Nat) : Prop :=
  (∀ p ∈ s.domain_queues, ∀ u ∈ p.2, u.depth ≤ k) ∧
    ∀ r ∈ s.db, r.depth ≤ k

/-- Total size in characters (modelling bytes) of a chunk list. -/
def chunksLen (cs : List String) : Nat := (cs.map String.length).sum

/-- The robots.txt retrievals that do not produce usable rules: 404,
any other non-200 status, a timeout, a connection error, or a 200 whose
body fails to parse. -/
def robotsFetchFailed : RobotsFetchOutcome → Bool
  | .status200 (.parsed _ _ _) => false
  | .status200 .parseFailure => true
  | .status404 => true
  | .otherStatus _ => true
  | .timeoutErr => true
  | .connectErr => true

/-- First row of the `crawled_pages` table with the given url (unique
when it exists, since upserts are keyed by url). -/
def rowFor (db : List StoredRow) (url : String) : Option StoredRow :=
  db.find? (fun r => decide (r.url = url))

/-! ### Association-list and list lemmas -/

theorem alookup_aupdate_self {α : Type} (l : List (String × α)) (k : String)
    (v : α) : alookup (aupdate l k v) k = some v := by
  induction l with
  | nil => simp [aupdate, alookup]
  | cons p rest ih =>
    obtain ⟨k', v'⟩ := p
    by_cases h : k' = k
    · simp [aupdate, alookup, h]
    · simp [aupdate, alookup, h, ih]

theorem alookup_aupdate_ne {α : Type} (l : List (String × α)) (k k' : String)
    (v : α) (h : k' ≠ k) : alookup (aupdate l k v) k' = alookup l k' := by
  have hne : ¬ k = k' := fun hk => h hk.symm
  induction l with
  | nil => simp [aupdate, alookup, hne]
  | cons p rest ih =>
    obtain ⟨k0, v0⟩ := p
    by_cases h0 : k0 = k
    · subst h0
      simp [aupdate, alookup, hne]
    · simp only [aupdate, if_neg h0, alookup]
      by_cases h1 : k0 = k'
      · simp [h1]
      · simp [h1, ih]

theorem find?_append_of_none {α : Type} (p : α → Bool) (l1 l2 : List α)
    (h : ∀ a ∈ l1, p a = false) :
    List.find? p (l1 ++ l2) = List.find? p l2 := by
  induction l1 with
  | nil => simp
  | cons a rest ih =>
    have ha := h a (by simp)
    simp only [List.cons_append, List.find?, ha]
    exact ih (fun b hb => h b (by simp [hb]))

/-! ### Claim theorems -/

/-- C1: evaluation of the frontier at a two-URL input showing the claim
fails on the code.  After admitting a priority-1 URL and then a
priority-5 URL of the same domain, the domain's queue holds them in
discovery order (not priority-descending order), and `get_next_url`
returns the priority-1 entry, not the highest-priority one: `add_url`
appends to a plain deque and `get_next_url` pops its left end, ignoring
`priority` (contradicting the class docstring's "Priority-based URL
ordering" feature and the unused `UrlInfo.__lt__` comparator). -/
theorem c1_priority_ordering_bug :
    let u1 : UrlInfo :=
      { url := "http://a.test/x", depth := 0, priority := 1, discovered_at := 0 }
    let u2 : UrlInfo :=
      { url := "http://a.test/y", depth := 0, priority := 5, discovered_at := 1 }
    let s2 := (add_url (add_url frontierInit u1).2 u2).2
    alookup s2.domain_queues "a.test" = some [u1, u2] ∧
      u1.priority < u2.priority ∧
      (get_next_url {} s2 10).1 = some u1 ∧
      (get_next_url {} s2 10).1 ≠ some u2 := by
  decide

/-- C2 counterexample: a run in which the robots policy of `a.test`
declares `crawl_delay = 5` (so the effective politeness delay
`RobotsHandler.get_crawl_delay` computes is `max(5, request_delay) = 5`)
yet two consecutive dequeues of `a.test` happen at times 0 and 1, only
`request_delay = 1` apart, because `UrlFrontier.get_next_url` consults
`config.request_delay` alone and the crawl loop never calls
`get_crawl_delay`. -/
theorem c2_counterexample :
    let cfg : CrawlerConfig := {}
    let u1 : UrlInfo :=
      { url := "http://a.test/x", depth := 0, priority := 1, discovered_at := 0 }
    let u2 : UrlInfo :=
      { url := "http://a.test/y", depth := 0, priority := 5, discovered_at := 1 }
    let rinfo : RobotsTxtInfo :=
      { domain := "a.test", can_fetch := true, crawl_delay := some 5 }
    let tr := (runOps cfg frontierInit
      [.addOp u1, .addOp u2, .nextOp 0, .nextOp 1]).2
    domTimes "a.test" tr = [0, 1] ∧
      get_crawl_delay cfg "http://a.test/x" (some rinfo) = 5 ∧
      ¬ ((1 : Time) - 0 ≥ get_crawl_delay cfg "http://a.test/x" (some rinfo)) := by
  decide

/-- C5: admission is idempotent.  For a frontier state that has never
seen the URL, the first `add_url` of a URL with a well-formed domain
returns `true`; a second `add_url` of the same URL returns `false` and
leaves the state exactly as the first call left it; and the persisted
table then holds exactly one row for the URL, in status `pending`. -/
theorem c5_idempotent_admission (s : FrontierState) (u1 u2 : UrlInfo)
    (hsame : u2.url = u1.url)
    (hdom : (extract_domain u1.url).isSome = true)
    (hseen : u1.url ∉ s.seen_urls)
    (hdb : ∀ r ∈ s.db, r.url ≠ u1.url) :
    (add_url s u1).1 = true ∧
      add_url (add_url s u1).2 u2 = (false, (add_url s u1).2) ∧
      ((add_url s u1).2.db.filter (fun r => decide (r.url = u1.url))).length = 1 ∧
      ∀ r ∈ (add_url s u1).2.db, r.url = u1.url →
        r.status = CrawlStatus.pending := by
  obtain ⟨d, hd⟩ := Option.isSome_iff_exists.mp hdom
  have hany : s.db.any (fun x => decide (x.url = u1.url)) = false := by
    simp only [List.any_eq_false, decide_eq_true_eq]
    exact fun r hr => hdb r hr
  have h1 : add_url s u1 =
      (true,
        { s with
          seen_urls := u1.url :: s.seen_urls
          domain_queues := appendToQueue s.domain_queues d u1
          total_urls := s.total_urls + 1
          db := s.db ++ [⟨u1.url, d, u1.depth, u1.priority, u1.parent_url,
            u1.discovered_at, CrawlStatus.pending⟩] }) := by
    simp only [add_url, if_neg hseen, hd, dbInsertOrIgnore, hany,
      Bool.false_eq_true, if_false]
  have hrej : ∀ (s0 : FrontierState) (u : UrlInfo), u.url ∈ s0.seen_urls →
      add_url s0 u = (false, s0) := by
    intro s0 u h
    simp [add_url, h]
  refine ⟨by simp [h1], ?_, ?_, ?_⟩
  · apply hrej
    rw [h1]
    simp [hsame]
  · have hold : (s.db.filter (fun r => decide (r.url = u1.url))) = [] := by
      simp only [List.filter_eq_nil_iff, decide_eq_true_eq]
      exact fun r hr => hdb r hr
    simp [h1, List.filter_append, hold]
  · intro r hr hurl
    rw [h1] at hr
    simp only [List.mem_append, List.mem_singleton] at hr
    rcases hr with hr | hr
    · exact absurd hurl (hdb r hr)
    · rw [hr]

/-- C5 witness: instantiation at a fresh frontier and the URL
`http://a.test/x` (the persisted row's `pending` status is checked on
the concrete single row the theorem guarantees). -/
theorem c5_witness :
    let u : UrlInfo := { url := "http://a.test/x", depth := 0 }
    (extract_domain u.url).isSome = true ∧
      (add_url frontierInit u).1 = true ∧
      add_url (add_url frontierInit u).2 u = (false, (add_url frontierInit u).2) ∧
      ((add_url frontierInit u).2.db.filter
        (fun r => decide (r.url = u.url))).length = 1 := by
  have h := c5_idempotent_admission frontierInit
    { url := "http://a.test/x", depth := 0 }
    { url := "http://a.test/x", depth := 0 } rfl (by decide) (by decide)
    (by simp [frontierInit])
  exact ⟨by decide, h.1, h.2.1, h.2.2.1⟩

/-- C6: robots checking fails open.  First conjunct: for a domain not in
the cache whose robots.txt retrieval is a 404, any other non-200 status,
a timeout, a connection error, or a 200 with a failing parse, `can_fetch`
answers `true` for every URL of that domain and caches an
allow-everything policy (`can_fetch := true`).  Second conjunct: with
`respect_robots_txt` disabled, `can_fetch` answers `true` for every URL
and never touches the cache (no fetch happens: the result is independent
of the fetch outcome). -/
theorem c6_robots_fail_open :
    (∀ (cfg : CrawlerConfig) (cache : List (String × RobotsTxtInfo))
        (url d : String) (o : RobotsFetchOutcome) (now : Time),
      cfg.respect_robots_txt = true →
      extract_domain url = some d →
      alookup cache d = none →
      robotsFetchFailed o = true →
      can_fetch cfg cache url o now =
        (true, aupdate cache d
          { domain := d, can_fetch := true, crawl_delay := none
            sitemap_urls := [], last_fetched := now })) ∧
    ∀ (cfg : CrawlerConfig) (cache : List (String × RobotsTxtInfo))
        (url : String) (o : RobotsFetchOutcome) (now : Time),
      cfg.respect_robots_txt = false →
      can_fetch cfg cache url o now = (true, cache) := by
  constructor
  · intro cfg cache url d o now hr hd hmiss ho
    have hinfo : fetch_robots_txt d o now =
        { domain := d, can_fetch := true, crawl_delay := none
          sitemap_urls := [], last_fetched := now } := by
      cases o with
      | status200 p =>
        cases p with
        | parsed can delay maps => simp [robotsFetchFailed] at ho
        | parseFailure => rfl
      | status404 => rfl
      | otherStatus code => rfl
      | timeoutErr => rfl
      | connectErr => rfl
    simp [can_fetch, hr, hd, get_robots_info, hmiss, hinfo]
  · intro cfg cache url o now hr
    simp [can_fetch, hr]

/-- C6 witness: a fresh cache, the domain `a.test`, and each failing
outcome in turn; plus the disabled-robots case on a denying policy. -/
theorem c6_witness :
    can_fetch {} [] "http://a.test/p" .status404 0 =
      (true, [("a.test",
        { domain := "a.test", can_fetch := true, crawl_delay := none
          sitemap_urls := [], last_fetched := 0 })]) ∧
    can_fetch {} [] "http://a.test/p" (.otherStatus 503) 0 =
      (true, [("a.test",
        { domain := "a.test", can_fetch := true, crawl_delay := none
          sitemap_urls := [], last_fetched := 0 })]) ∧
    can_fetch {} [] "http://a.test/p" .timeoutErr 0 =
      (true, [("a.test",
        { domain := "a.test", can_fetch := true, crawl_delay := none
          sitemap_urls := [], last_fetched := 0 })]) ∧
    can_fetch {} [] "http://a.test/p" (.status200 .parseFailure) 0 =
      (true, [("a.test",
        { domain := "a.test", can_fetch := true, crawl_delay := none
          sitemap_urls := [], last_fetched := 0 })]) ∧
    can_fetch { respect_robots_txt := false } []
      "http://a.test/p" (.status200 (.parsed false none [])) 0 = (true, []) := by
  refine ⟨?_, ?_, ?_, ?_, c6_robots_fail_open.2 _ _ _ _ _ rfl⟩ <;>
    exact c6_robots_fail_open.1 _ _ _ _ _ _ rfl (by decide) rfl rfl

/-- C9: `Fetcher.fetch` is not total over `CrawlResult`.  For any valid
URL whose response passes the content-type screen, carries no declared
`Content-Length`, has a redirect status in {301, 302, 303, 307, 308} and
no `location` header, every `return` of `fetch` is skipped and the call
produces Python's implicit `None` — so the orchestrator's subsequent
read of `crawl_result.status` has no value to read. -/
theorem c9_fetch_none_on_redirect_without_location
    (cfg : CrawlerConfig) (url : String) (depth : Nat)
    (parent_url : Option String) (r : HttpResponse)
    (hv : urlIsValid url = true)
    (hct : is_allowed_content_type cfg (strLower (r.content_type.getD "")) = true)
    (hlen : r.content_length = none)
    (hs : r.status ∈ [301, 302, 303, 307, 308])
    (hloc : r.location = none) :
    fetch cfg url depth parent_url (.response r) = none := by
  have hd : fetchStatusDispatch cfg url depth parent_url r
      (strLower (r.content_type.getD "")) = none := by
    have h200 : ¬ r.status = 200 := by
      have hs' := hs
      simp only [List.mem_cons, List.not_mem_nil, or_false] at hs'
      rcases hs' with h | h | h | h | h <;> simp [h]
    simp only [fetchStatusDispatch, if_neg h200, if_pos hs, hloc]
  simp [fetch, hv, hct, hlen, hd]

/-- C9 witness: a 301 response with no `location` header for
`http://a.test/x` makes `fetch` return `none`. -/
theorem c9_witness :
    fetch {} "http://a.test/x" 0 none
      (.response { status := 301, content_type := some "text/html" }) = none := by
  exact c9_fetch_none_on_redirect_without_location {} "http://a.test/x" 0 none
    { status := 301, content_type := some "text/html" }
    (by decide) (by decide) rfl (by decide) rfl

/-- The chunk loop aborts inside any leading chunk segment whose total
size already exceeds the cap: whatever follows that segment is never
read and cannot change the outcome. -/
theorem read_chunks_over (maxSize : Nat) :
    ∀ (cs : List String) (acc : Nat), acc ≤ maxSize →
      acc + chunksLen cs > maxSize →
      ∀ rest, read_chunks maxSize acc (cs ++ rest) = none := by
  intro cs
  induction cs with
  | nil =>
    intro acc h1 h2
    simp only [chunksLen, List.map_nil, List.sum_nil] at h2
    omega
  | cons c cs ih =>
    intro acc h1 h2 rest
    simp only [List.cons_append, read_chunks]
    by_cases hc : acc + c.length > maxSize
    · simp [hc]
    · have hle : acc + c.length ≤ maxSize := by omega
      have hrec : read_chunks maxSize (acc + c.length) (cs ++ rest) = none := by
        apply ih _ hle _ rest
        simp only [chunksLen, List.map_cons, List.sum_cons] at h2 ⊢
        omega
      simp [hc, hrec]

/-- C7: for a 200 response whose declared `Content-Length` is within
`max_file_size` but whose streamed body exceeds it, `fetch` returns a
`FAILED` result with no page; the chunk loop returns `none` no matter
what (unread) data follows the oversized stream, i.e. it aborts the
moment the accumulated size passes the cap; and the orchestrator's
storage step leaves storage untouched on that result, so no partial
content is stored. -/
theorem c7_oversize_abort (cfg : CrawlerConfig) (url : String) (depth : Nat)
    (parent_url : Option String) (r : HttpResponse) (n : Nat)
    (hv : urlIsValid url = true)
    (hct : is_allowed_content_type cfg (strLower (r.content_type.getD "")) = true)
    (hs : r.status = 200)
    (hdecl : r.content_length = some n)
    (hn : ¬ n > cfg.max_file_size)
    (hover : chunksLen r.chunks > cfg.max_file_size) :
    fetch cfg url depth parent_url (.response r) =
      some { url := url, status := .failed, page := none
             error_message := some "Content too large or read error" } ∧
    (∀ rest, read_chunks cfg.max_file_size 0 (r.chunks ++ rest) = none) ∧
    ∀ (st : StorageState) (po : ParseOutcome),
      process_storage st
        { url := url, status := .failed, page := none
          error_message := some "Content too large or read error" } po = st := by
  have habort : ∀ rest, read_chunks cfg.max_file_size 0 (r.chunks ++ rest) = none :=
    fun rest => read_chunks_over _ _ 0 (Nat.zero_le _) (by omega) rest
  have hrcs : read_content_safely cfg r = none := by
    have h0 := habort []
    rw [List.append_nil] at h0
    simp [read_content_safely, h0]
  refine ⟨?_, habort, ?_⟩
  · simp [fetch, hv, hct, hdecl, hn, fetchStatusDispatch, hs, hrcs]
  · intro st po
    simp [process_storage]

/-- C7 witness: cap 5, declared length 4, streamed chunks of sizes 3 and
4 (7 bytes total); the fetch fails, further stream data is irrelevant,
and a concrete storage state is unchanged. -/
theorem c7_witness :
    let cfg : CrawlerConfig := { max_file_size := 5 }
    let r : HttpResponse :=
      { status := 200, content_type := some "text/html"
        content_length := some 4, chunks := ["abc", "defg"] }
    fetch cfg "http://a.test/x" 0 none (.response r) =
      some { url := "http://a.test/x", status := .failed, page := none
             error_message := some "Content too large or read error" } ∧
    read_chunks cfg.max_file_size 0 (r.chunks ++ ["zz"]) = none ∧
    process_storage {} { url := "http://a.test/x", status := .failed
                         page := none
                         error_message := some "Content too large or read error" }
      .parseFailure = {} := by
  have h := c7_oversize_abort { max_file_size := 5 } "http://a.test/x" 0 none
    { status := 200, content_type := some "text/html"
      content_length := some 4, chunks := ["abc", "defg"] } 4
    (by decide) (by decide) rfl rfl (by decide) (by decide)
  exact ⟨h.1, h.2.1 ["zz"], h.2.2 {} .parseFailure⟩

/-- Helper for C8: the status dispatch can only answer `SUCCESS` out of
its 200 branch, whose page is built with the `CrawledPage` defaults in
every extraction field. -/
theorem fetchStatusDispatch_success_page (cfg : CrawlerConfig) (url : String)
    (depth : Nat) (parent_url : Option String) (r : HttpResponse) (ct : String)
    (res : CrawlResult) (pg : CrawledPage)
    (hd : fetchStatusDispatch cfg url depth parent_url r ct = some res)
    (hst : res.status = CrawlStatus.success)
    (hpg : res.page = some pg) :
    pg.title = none ∧ pg.meta_description = none ∧
      pg.meta_keywords = none ∧ pg.links = [] ∧ pg.images = [] := by
  unfold fetchStatusDispatch at hd
  split at hd
  · split at hd
    · have h := Option.some.inj hd
      subst h
      simp at hst
    · have h := Option.some.inj hd
      subst h
      have h2 := Option.some.inj hpg
      subst h2
      exact ⟨rfl, rfl, rfl, rfl, rfl⟩
  · split at hd
    · split at hd
      · have h := Option.some.inj hd
        subst h
        simp at hst
      · exact absurd hd (by simp)
    · split at hd
      · have h := Option.some.inj hd
        subst h
        simp at hst
      · split at hd
        · have h := Option.some.inj hd
          subst h
          simp at hst
        · split at hd
          · have h := Option.some.inj hd
            subst h
            simp at hst
          · split at hd
            · have h := Option.some.inj hd
              subst h
              simp at hst
            · have h := Option.some.inj hd
              subst h
              simp at hst

/-- Every page a successful `fetch` hands to the parser carries the
`CrawledPage` constructor defaults in its extraction fields: the 200
branch builds the page from the response alone. -/
theorem fetch_success_page_fields (cfg : CrawlerConfig) (url : String)
    (depth : Nat) (parent_url : Option String) (o : RequestOutcome)
    (res : CrawlResult) (pg : CrawledPage)
    (hres : fetch cfg url depth parent_url o = some res)
    (hst : res.status = CrawlStatus.success)
    (hpg : res.page = some pg) :
    pg.title = none ∧ pg.meta_description = none ∧
      pg.meta_keywords = none ∧ pg.links = [] ∧ pg.images = [] := by
  unfold fetch at hres
  split at hres
  · have h := Option.some.inj hres
    subst h
    simp at hst
  · cases o with
    | timeoutErr =>
      have h := Option.some.inj hres
      subst h
      simp at hst
    | clientErr m =>
      have h := Option.some.inj hres
      subst h
      simp at hst
    | otherErr m =>
      have h := Option.some.inj hres
      subst h
      simp at hst
    | response r =>
      simp only at hres
      split at hres
      · have h := Option.some.inj hres
        subst h
        simp at hst
      · split at hres
        · split at hres
          · have h := Option.some.inj hres
            subst h
            simp at hst
          · exact fetchStatusDispatch_success_page cfg url depth parent_url
              r _ res pg hres hst hpg
        · exact fetchStatusDispatch_success_page cfg url depth parent_url
            r _ res pg hres hst hpg

/-- C8: the parser never lets an internal parse exception escape — it is
a total function of the page and the HTML-library outcome — and on the
exception path it returns every successfully fetched document unchanged,
with all extraction fields (title, meta description, meta keywords,
links, images) still empty. -/
theorem c8_parse_degrades_gracefully (cfg : CrawlerConfig) (url : String)
    (depth : Nat) (parent_url : Option String) (o : RequestOutcome)
    (res : CrawlResult) (pg : CrawledPage)
    (hres : fetch cfg url depth parent_url o = some res)
    (hst : res.status = CrawlStatus.success)
    (hpg : res.page = some pg) :
    parsePage pg .parseFailure = pg ∧
      pg.title = none ∧ pg.meta_description = none ∧
      pg.meta_keywords = none ∧ pg.links = [] ∧ pg.images = [] := by
  have h := fetch_success_page_fields cfg url depth parent_url o res pg
    hres hst hpg
  exact ⟨rfl, h⟩

/-- C8 witness: a concrete successful fetch (200, `text/html`, body
"hi") whose page survives a parse failure unchanged with empty
extraction fields. -/
theorem c8_witness :
    let r : HttpResponse :=
      { status := 200, content_type := some "text/html", chunks := ["hi"] }
    let pg : CrawledPage :=
      { url := "http://a.test/x", status_code := 200
        content_type := "text/html", content := "hi", file_size := 2 }
    fetch {} "http://a.test/x" 0 none (.response r) =
      some { url := "http://a.test/x", status := .success, page := some pg
             error_message := none } ∧
    parsePage pg .parseFailure = pg ∧ pg.title = none ∧ pg.links = [] := by
  have hf : fetch {} "http://a.test/x" 0 none
      (.response { status := 200, content_type := some "text/html"
                   chunks := ["hi"] }) =
      some { url := "http://a.test/x", status := .success
             page := some { url := "http://a.test/x", status_code := 200
                            content_type := "text/html", content := "hi"
                            file_size := 2 }
             error_message := none } := by decide
  have h := c8_parse_degrades_gracefully {} "http://a.test/x" 0 none
    (.response { status := 200, content_type := some "text/html"
                 chunks := ["hi"] })
    _ _ hf rfl rfl
  exact ⟨hf, h.1, h.2.1, h.2.2.2.2.1⟩

/-- `find?` ignores a filter whose predicate is implied by the search
predicate. -/
theorem find?_filter_of_imp {α : Type} (p q : α → Bool) (l : List α)
    (h : ∀ a, p a = true → q a = true) :
    List.find? p (l.filter q) = List.find? p l := by
  induction l with
  | nil => rfl
  | cons a rest ih =>
    by_cases hq : q a = true
    · cases hpa : p a
      · simp [List.filter_cons, hq, List.find?, hpa, ih]
      · simp [List.filter_cons, hq, List.find?, hpa]
    · have hp : p a = false := by
        cases hpa : p a
        · rfl
        · exact absurd (h a hpa) hq
      have hq' : q a = false := by simpa using hq
      simp [List.filter_cons, hq', List.find?, hp, ih]

/-- After an upsert, the lookup at the upserted url returns exactly the
new row. -/
theorem rowFor_insertOrReplace_self (db : List StoredRow) (r : StoredRow) :
    rowFor (dbInsertOrReplace db r) r.url = some r := by
  rw [rowFor, dbInsertOrReplace, List.find?_append]
  have hnone : List.find? (fun x => decide (x.url = r.url))
      (db.filter (fun x => !decide (x.url = r.url))) = none := by
    rw [List.find?_eq_none]
    intro a ha
    have h2 := (List.mem_filter.mp ha).2
    simpa using h2
  rw [hnone]
  simp [List.find?]

/-- An upsert leaves lookups at every other url unchanged. -/
theorem rowFor_insertOrReplace_ne (db : List StoredRow) (r : StoredRow)
    (u : String) (h : u ≠ r.url) :
    rowFor (dbInsertOrReplace db r) u = rowFor db u := by
  rw [rowFor, dbInsertOrReplace, List.find?_append]
  rw [find?_filter_of_imp _ _ _ ?imp]
  case imp =>
    intro a ha
    have ha2 : a.url = u := by simpa using ha
    simp [ha2, h]
  have hru : ¬ r.url = u := fun hh => h hh.symm
  have hr : List.find? (fun x => decide (x.url = u)) [r] = none := by
    simp [List.find?, hru]
  rw [hr, rowFor]
  simp

/-- One duplicate-path `store_page` step over an arbitrary state: the
counter is bumped, a metadata-only row with empty file paths is
upserted, and no file is written. -/
theorem store_page_dup_fields (st : StorageState) (p : CrawledPage)
    (hdup : is_duplicate_content st (hash_content p.content) = true) :
    (store_page st p).1 = true ∧
    (store_page st p).2.db = dbInsertOrReplace st.db
      (mkStoredRow p (hash_url p.url) (hash_content p.content) "" "") ∧
    (store_page st p).2.content_files = st.content_files ∧
    (store_page st p).2.duplicate_content = st.duplicate_content + 1 := by
  refine ⟨?_, ?_, ?_, ?_⟩ <;> simp [store_page, hdup, store_links]

/-- One fresh-path `store_page` step over an arbitrary state: the
content blob and metadata file are written under the URL hash and the
full row is upserted, without touching the duplicate counter. -/
theorem store_page_fresh_fields (st : StorageState) (p : CrawledPage)
    (hdup : is_duplicate_content st (hash_content p.content) = false) :
    (store_page st p).1 = true ∧
    (store_page st p).2.db = dbInsertOrReplace st.db
      (mkStoredRow p (hash_url p.url) (hash_content p.content)
        ("content/" ++ hash_url p.url ++ ".html")
        ("metadata/" ++ hash_url p.url ++ ".json")) ∧
    (store_page st p).2.content_files =
      aupdate st.content_files ("content/" ++ hash_url p.url ++ ".html")
        p.content ∧
    (store_page st p).2.duplicate_content = st.duplicate_content := by
  refine ⟨?_, ?_, ?_, ?_⟩ <;> simp [store_page, hdup, store_links]

/-- C3: storing two parsed documents with the same body and different
URLs writes no second content blob (the file map is unchanged by the
second store), increments the duplicate counter, and leaves two rows
that share one content reference: the second row's `content_file_path`
and `metadata_file_path` are empty, its `content_hash` equals the first
row's, and the first row's `content_file_path` is the single stored copy
of the shared body. -/
theorem c3_content_dedup (st0 : StorageState) (p1 p2 : CrawledPage)
    (hbody : p2.content = p1.content)
    (hurl : p2.url ≠ p1.url)
    (hnodup : is_duplicate_content st0 (hash_content p1.content) = false) :
    (store_page (store_page st0 p1).2 p2).1 = true ∧
    (store_page (store_page st0 p1).2 p2).2.content_files =
      (store_page st0 p1).2.content_files ∧
    (store_page (store_page st0 p1).2 p2).2.duplicate_content =
      (store_page st0 p1).2.duplicate_content + 1 ∧
    ∃ r1 r2,
      rowFor (store_page (store_page st0 p1).2 p2).2.db p1.url = some r1 ∧
      rowFor (store_page (store_page st0 p1).2 p2).2.db p2.url = some r2 ∧
      r2.content_hash = r1.content_hash ∧
      r2.content_file_path = "" ∧
      r2.metadata_file_path = "" ∧
      r1.content_file_path = "content/" ++ hash_url p1.url ++ ".html" ∧
      alookup (store_page (store_page st0 p1).2 p2).2.content_files
        r1.content_file_path = some p2.content := by
  have hne1 : ¬ p1.url = p2.url := fun h => hurl h.symm
  obtain ⟨-, hdb1, hcf1, -⟩ := store_page_fresh_fields st0 p1 hnodup
  have hdup2 : is_duplicate_content (store_page st0 p1).2
      (hash_content p2.content) = true := by
    rw [is_duplicate_content, hdb1, hbody, dbInsertOrReplace]
    simp [List.any_append, mkStoredRow]
  obtain ⟨hb2, hdb2, hcf2, hdc2⟩ :=
    store_page_dup_fields (store_page st0 p1).2 p2 (hbody ▸ hdup2)
  refine ⟨hb2, hcf2, hdc2, ?_⟩
  refine ⟨mkStoredRow p1 (hash_url p1.url) (hash_content p1.content)
      ("content/" ++ hash_url p1.url ++ ".html")
      ("metadata/" ++ hash_url p1.url ++ ".json"),
    mkStoredRow p2 (hash_url p2.url) (hash_content p2.content) "" "",
    ?_, ?_, ?_, rfl, rfl, rfl, ?_⟩
  · rw [hdb2, rowFor_insertOrReplace_ne _ _ _ (by simpa [mkStoredRow] using hne1),
      hdb1]
    have hself := rowFor_insertOrReplace_self st0.db
      (mkStoredRow p1 (hash_url p1.url) (hash_content p1.content)
        ("content/" ++ hash_url p1.url ++ ".html")
        ("metadata/" ++ hash_url p1.url ++ ".json"))
    simpa [mkStoredRow] using hself
  · rw [hdb2]
    have hself := rowFor_insertOrReplace_self (store_page st0 p1).2.db
      (mkStoredRow p2 (hash_url p2.url) (hash_content p2.content) "" "")
    simpa [mkStoredRow] using hself
  · simp [mkStoredRow, hbody]
  · rw [hcf2, hcf1]
    simp only [mkStoredRow]
    rw [alookup_aupdate_self, hbody]

/-- C3 witness: two pages with body "BODY" at different URLs stored into
an empty storage state. -/
theorem c3_witness :
    let p1 : CrawledPage := { url := "http://a.test/1", status_code := 200
                              content_type := "text/html", content := "BODY" }
    let p2 : CrawledPage := { url := "http://a.test/2", status_code := 200
                              content_type := "text/html", content := "BODY" }
    (store_page (store_page {} p1).2 p2).1 = true ∧
    (store_page (store_page {} p1).2 p2).2.content_files =
      (store_page {} p1).2.content_files ∧
    (store_page (store_page {} p1).2 p2).2.duplicate_content =
      (store_page {} p1).2.duplicate_content + 1 := by
  have h := c3_content_dedup {}
    { url := "http://a.test/1", status_code := 200
      content_type := "text/html", content := "BODY" }
    { url := "http://a.test/2", status_code := 200
      content_type := "text/html", content := "BODY" }
    rfl (by decide) rfl
  exact ⟨h.1, h.2.1, h.2.2.1⟩

/-- C10: re-storing the same URL with an unchanged body degrades the
URL's own record.  The second `store_page` of the identical page finds
the URL's earlier `content_hash` in the table, takes the duplicate path
(incrementing the duplicate counter), and upserts the URL's row with
empty `content_file_path` and `metadata_file_path`; the blob written for
that URL by the first store still exists, but the row no longer
references it. -/
theorem c10_restore_degrades_record (st0 : StorageState) (p : CrawledPage)
    (hnodup : is_duplicate_content st0 (hash_content p.content) = false) :
    (store_page (store_page st0 p).2 p).2.duplicate_content =
      (store_page st0 p).2.duplicate_content + 1 ∧
    rowFor (store_page (store_page st0 p).2 p).2.db p.url =
      some (mkStoredRow p (hash_url p.url) (hash_content p.content) "" "") ∧
    (mkStoredRow p (hash_url p.url) (hash_content p.content) "" "").content_file_path
      ≠ "content/" ++ hash_url p.url ++ ".html" ∧
    alookup (store_page (store_page st0 p).2 p).2.content_files
      ("content/" ++ hash_url p.url ++ ".html") = some p.content := by
  obtain ⟨-, hdb1, hcf1, -⟩ := store_page_fresh_fields st0 p hnodup
  have hdup2 : is_duplicate_content (store_page st0 p).2
      (hash_content p.content) = true := by
    rw [is_duplicate_content, hdb1, dbInsertOrReplace]
    simp [List.any_append, mkStoredRow]
  obtain ⟨hb2, hdb2, hcf2, hdc2⟩ :=
    store_page_dup_fields (store_page st0 p).2 p hdup2
  refine ⟨hdc2, ?_, ?_, ?_⟩
  · rw [hdb2]
    have hself := rowFor_insertOrReplace_self (store_page st0 p).2.db
      (mkStoredRow p (hash_url p.url) (hash_content p.content) "" "")
    simpa [mkStoredRow] using hself
  · simp only [mkStoredRow]
    intro hcontra
    have hlen := congrArg String.length hcontra
    rw [String.length_append, String.length_append, hash_url,
      String.length_append] at hlen
    have h0 : ("" : String).length = 0 := rfl
    have h8 : ("content/" : String).length = 8 := rfl
    have h2 : ("u:" : String).length = 2 := rfl
    have h5 : (".html" : String).length = 5 := rfl
    rw [h0, h8, h2, h5] at hlen
    omega
  · rw [hcf2, hcf1, alookup_aupdate_self]

/-- C10 witness: the page at `http://a.test/1` with body "BODY" stored
twice into an empty storage state. -/
theorem c10_witness :
    let p : CrawledPage := { url := "http://a.test/1", status_code := 200
                             content_type := "text/html", content := "BODY" }
    (store_page (store_page {} p).2 p).2.duplicate_content =
      (store_page {} p).2.duplicate_content + 1 ∧
    rowFor (store_page (store_page {} p).2 p).2.db p.url =
      some (mkStoredRow p (hash_url p.url) (hash_content p.content) "" "") ∧
    alookup (store_page (store_page {} p).2 p).2.content_files
      ("content/" ++ hash_url p.url ++ ".html") = some p.content := by
  have h := c10_restore_degrades_record {}
    { url := "http://a.test/1", status_code := 200
      content_type := "text/html", content := "BODY" } rfl
  exact ⟨h.1, h.2.1, h.2.2.2⟩

/-- The (zero- or one-element) list of time stamps a domain's
`last_access_time` entry holds. -/
def lastTimes (o : Option Time) : List Time :=
  match o with
  | none => []
  | some t => [t]

/-- `add_url` never touches `last_access_time`. -/
theorem add_url_last_access (s : FrontierState) (u : UrlInfo) :
    (add_url s u).2.last_access_time = s.last_access_time := by
  rw [add_url]
  split
  · rfl
  · split <;> rfl

/-- Dequeue-trace bookkeeping: a stamp of the same domain is collected,
any other domain's stamp is skipped. -/
theorem domTimes_cons_self (d : String) (t : Time)
    (tr : List (String × Time)) :
    domTimes d ((d, t) :: tr) = t :: domTimes d tr := by
  simp [domTimes]

/-- Dequeue-trace bookkeeping for a foreign domain's stamp. -/
theorem domTimes_cons_ne (d d' : String) (h : d' ≠ d) (t : Time)
    (tr : List (String × Time)) :
    domTimes d ((d', t) :: tr) = domTimes d tr := by
  simp [domTimes, h]

/-- A successful scan only picks a domain that is currently eligible:
either never accessed, or accessed at least `delay` seconds ago. -/
theorem scanQueues_eligible (delay : Time) (last : List (String × Time))
    (now : Time) :
    ∀ (qs : List (String × List UrlInfo)) (u : UrlInfo) (d : String)
      (qs' : List (String × List UrlInfo)),
      scanQueues delay last now qs = some (u, d, qs') →
      alookup last d = none ∨
        ∃ t0, alookup last d = some t0 ∧ now - t0 ≥ delay := by
  intro qs
  induction qs with
  | nil =>
    intro u d qs' h
    simp [scanQueues] at h
  | cons p rest ih =>
    intro u d qs' h
    obtain ⟨d0, q⟩ := p
    cases q with
    | nil =>
      rw [scanQueues] at h
      rcases hs : scanQueues delay last now rest with _ | ⟨⟨u1, d1, r1⟩⟩
      · rw [hs] at h
        simp at h
      · rw [hs] at h
        simp only [Option.some_inj, Prod.mk.injEq] at h
        obtain ⟨h1, h2, h3⟩ := h
        subst h2
        exact ih u1 d1 r1 hs
    | cons u0 q' =>
      rw [scanQueues] at h
      rcases hel : alookup last d0 with _ | ⟨t0⟩
      · simp only [hel, if_true] at h
        simp only [Option.some_inj, Prod.mk.injEq] at h
        obtain ⟨h1, h2, h3⟩ := h
        subst h2
        exact Or.inl hel
      · simp only [hel] at h
        rcases hdec : decide (now - t0 ≥ delay) with _ | _
        · rw [if_neg (by simp [hdec])] at h
          rcases hs : scanQueues delay last now rest with _ | ⟨⟨u1, d1, r1⟩⟩
          · rw [hs] at h
            simp at h
          · rw [hs] at h
            simp only [Option.some_inj, Prod.mk.injEq] at h
            obtain ⟨h1, h2, h3⟩ := h
            subst h2
            exact ih u1 d1 r1 hs
        · rw [if_pos hdec] at h
          simp only [Option.some_inj, Prod.mk.injEq] at h
          obtain ⟨h1, h2, h3⟩ := h
          subst h2
          exact Or.inr ⟨t0, hel, of_decide_eq_true hdec⟩

/-- Politeness invariant of frontier runs: for every domain, the time
stored in `last_access_time` followed by the domain's future dequeue
stamps forms a chain in which consecutive stamps are at least
`request_delay` apart. -/
theorem runOps_politeness (cfg : CrawlerConfig) (d : String) :
    ∀ (ops : List FrontierOp) (s : FrontierState),
      List.Chain' (fun t1 t2 => t2 - t1 ≥ cfg.request_delay)
        (lastTimes (alookup s.last_access_time d) ++
          domTimes d (runOps cfg s ops).2) := by
  intro ops
  induction ops with
  | nil =>
    intro s
    simp only [runOps, domTimes, List.append_nil]
    cases alookup s.last_access_time d <;> simp [lastTimes]
  | cons op rest ih =>
    intro s
    cases op with
    | addOp u =>
      have hr : (runOps cfg s (.addOp u :: rest)).2 =
          (runOps cfg (add_url s u).2 rest).2 := by
        simp [runOps]
      rw [hr]
      have hih := ih (add_url s u).2
      rwa [add_url_last_access] at hih
    | nextOp t =>
      rcases hscan : scanQueues cfg.request_delay s.last_access_time t
          s.domain_queues with _ | ⟨u, d0, queues'⟩
      · have hr : (runOps cfg s (.nextOp t :: rest)).2 =
            (runOps cfg s rest).2 := by
          simp [runOps, get_next_url_dom, hscan]
        rw [hr]
        exact ih s
      · have hr : (runOps cfg s (.nextOp t :: rest)).2 =
            (d0, t) :: (runOps cfg
              { s with
                domain_queues := queues'
                last_access_time := aupdate s.last_access_time d0 t
                total_urls := s.total_urls - 1
                db := dbSetStatus s.db u.url CrawlStatus.in_progress } rest).2 := by
          simp [runOps, get_next_url_dom, hscan]
        rw [hr]
        have hih := ih
          { s with
            domain_queues := queues'
            last_access_time := aupdate s.last_access_time d0 t
            total_urls := s.total_urls - 1
            db := dbSetStatus s.db u.url CrawlStatus.in_progress }
        by_cases hd : d0 = d
        · subst hd
          rw [show ({ s with
              domain_queues := queues'
              last_access_time := aupdate s.last_access_time d0 t
              total_urls := s.total_urls - 1
              db := dbSetStatus s.db u.url CrawlStatus.in_progress }
                : FrontierState).last_access_time =
            aupdate s.last_access_time d0 t from rfl,
            alookup_aupdate_self] at hih
          simp only [lastTimes, List.singleton_append] at hih
          rw [domTimes_cons_self]
          rcases scanQueues_eligible cfg.request_delay s.last_access_time t
            s.domain_queues u d0 queues' hscan with hnone | ⟨t0, ht0, hge⟩
          · rw [hnone]
            simpa [lastTimes] using hih
          · rw [ht0]
            simp only [lastTimes, List.singleton_append]
            rw [List.chain'_cons]
            exact ⟨hge, hih⟩
        · rw [show ({ s with
              domain_queues := queues'
              last_access_time := aupdate s.last_access_time d0 t
              total_urls := s.total_urls - 1
              db := dbSetStatus s.db u.url CrawlStatus.in_progress }
                : FrontierState).last_access_time =
            aupdate s.last_access_time d0 t from rfl,
            alookup_aupdate_ne _ _ _ _ (fun hh => hd hh.symm)] at hih
          rw [domTimes_cons_ne _ _ hd]
          exact hih

/-- C2 (amended): in every frontier run started from a fresh frontier,
consecutive dequeues of any one domain are at least
`config.request_delay` seconds apart.  (The robots crawl-delay plays no
part: `get_next_url` checks `config.request_delay` only, as the
counterexample shows.) -/
theorem c2_politeness_request_delay (cfg : CrawlerConfig)
    (ops : List FrontierOp) (d : String) :
    List.Chain' (fun t1 t2 => t2 - t1 ≥ cfg.request_delay)
      (domTimes d (runOps cfg frontierInit ops).2) := by
  have h := runOps_politeness cfg d ops frontierInit
  simpa [frontierInit, alookup, lastTimes] using h

/-- Appending one bounded entry to a domain queue preserves the
queue-side depth bound. -/
theorem appendToQueue_depth (k : Nat) (u : UrlInfo) (hu : u.depth ≤ k) :
    ∀ (qs : List (String × List UrlInfo)) (d : String),
      (∀ p ∈ qs, ∀ v ∈ p.2, v.depth ≤ k) →
      ∀ p ∈ appendToQueue qs d u, ∀ v ∈ p.2, v.depth ≤ k := by
  intro qs
  induction qs with
  | nil =>
    intro d _ p hp v hv
    simp only [appendToQueue, List.mem_singleton] at hp
    subst hp
    simp only [List.mem_singleton] at hv
    subst hv
    exact hu
  | cons p0 rest ih =>
    intro d hq p hp v hv
    obtain ⟨d0, q0⟩ := p0
    by_cases hd : d0 = d
    · rw [appendToQueue, if_pos hd] at hp
      rcases List.mem_cons.mp hp with hp | hp
      · subst hp
        rcases List.mem_append.mp hv with hv | hv
        · exact hq (d0, q0) (by simp) v hv
        · simp only [List.mem_singleton] at hv
          subst hv
          exact hu
      · exact hq p (by simp [hp]) v hv
    · rw [appendToQueue, if_neg hd] at hp
      rcases List.mem_cons.mp hp with hp | hp
      · subst hp
        exact hq (d0, q0) (by simp) v hv
      · exact ih d (fun p1 hp1 => hq p1 (by simp [hp1])) p hp v hv

/-- `INSERT OR IGNORE` of one bounded row preserves the table-side depth
bound. -/
theorem dbInsertOrIgnore_depth (k : Nat) (db : List DbRecord) (r : DbRecord)
    (hdb : ∀ x ∈ db, x.depth ≤ k) (hr : r.depth ≤ k) :
    ∀ x ∈ dbInsertOrIgnore db r, x.depth ≤ k := by
  intro x hx
  rw [dbInsertOrIgnore] at hx
  split at hx
  · exact hdb x hx
  · rcases List.mem_append.mp hx with hx | hx
    · exact hdb x hx
    · simp only [List.mem_singleton] at hx
      subst hx
      exact hr

/-- Status updates do not change any row's depth. -/
theorem dbSetStatus_depth (k : Nat) (db : List DbRecord) (url : String)
    (st : CrawlStatus) (hdb : ∀ x ∈ db, x.depth ≤ k) :
    ∀ x ∈ dbSetStatus db url st, x.depth ≤ k := by
  intro x hx
  rw [dbSetStatus] at hx
  obtain ⟨x0, hx0, hfx⟩ := List.mem_map.mp hx
  have hd0 := hdb x0 hx0
  by_cases h : x0.url = url
  · rw [if_pos h] at hfx
    rw [← hfx]
    exact hd0
  · rw [if_neg h] at hfx
    rw [← hfx]
    exact hd0

/-- `add_url` of a bounded entry preserves the depth invariant. -/
theorem add_url_depthBounded (k : Nat) (s : FrontierState) (u : UrlInfo)
    (hs : depthBounded s k) (hu : u.depth ≤ k) :
    depthBounded (add_url s u).2 k := by
  rw [add_url]
  split
  · exact hs
  · split
    · exact hs
    · exact ⟨appendToQueue_depth k u hu s.domain_queues _ hs.1,
        dbInsertOrIgnore_depth k s.db _ hs.2 hu⟩

/-- A successful scan pops a bounded entry and leaves every remaining
queue entry bounded. -/
theorem scanQueues_depth (k : Nat) (delay : Time)
    (last : List (String × Time)) (now : Time) :
    ∀ (qs : List (String × List UrlInfo)) (u : UrlInfo) (d : String)
      (qs' : List (String × List UrlInfo)),
      (∀ p ∈ qs, ∀ v ∈ p.2, v.depth ≤ k) →
      scanQueues delay last now qs = some (u, d, qs') →
      u.depth ≤ k ∧ ∀ p ∈ qs', ∀ v ∈ p.2, v.depth ≤ k := by
  intro qs
  induction qs with
  | nil =>
    intro u d qs' _ h
    simp [scanQueues] at h
  | cons p0 rest ih =>
    intro u d qs' hq h
    obtain ⟨d0, q0⟩ := p0
    cases q0 with
    | nil =>
      rw [scanQueues] at h
      rcases hs : scanQueues delay last now rest with _ | ⟨⟨u1, d1, r1⟩⟩
      · rw [hs] at h
        simp at h
      · rw [hs] at h
        simp only [Option.some_inj, Prod.mk.injEq] at h
        obtain ⟨h1, h2, h3⟩ := h
        subst h1
        subst h3
        obtain ⟨hu1, hr1⟩ := ih u1 d1 r1
          (fun p1 hp1 => hq p1 (by simp [hp1])) hs
        refine ⟨hu1, ?_⟩
        intro p hp v hv
        rcases List.mem_cons.mp hp with hp | hp
        · subst hp
          simp at hv
        · exact hr1 p hp v hv
    | cons u0 q' =>
      rw [scanQueues] at h
      have hhead := hq (d0, u0 :: q') (by simp)
      rcases hel : (match alookup last d0 with
          | none => true
          | some t => decide (now - t ≥ delay)) with _ | _
      · rw [hel] at h
        simp only [Bool.false_eq_true, if_false] at h
        rcases hs : scanQueues delay last now rest with _ | ⟨⟨u1, d1, r1⟩⟩
        · rw [hs] at h
          simp at h
        · rw [hs] at h
          simp only [Option.some_inj, Prod.mk.injEq] at h
          obtain ⟨h1, h2, h3⟩ := h
          subst h1
          subst h3
          obtain ⟨hu1, hr1⟩ := ih u1 d1 r1
            (fun p1 hp1 => hq p1 (by simp [hp1])) hs
          refine ⟨hu1, ?_⟩
          intro p hp v hv
          rcases List.mem_cons.mp hp with hp | hp
          · subst hp
            exact hhead v hv
          · exact hr1 p hp v hv
      · rw [hel] at h
        simp only [if_true] at h
        simp only [Option.some_inj, Prod.mk.injEq] at h
        obtain ⟨h1, h2, h3⟩ := h
        subst h1
        subst h3
        refine ⟨hhead u0 (by simp), ?_⟩
        intro p hp v hv
        rcases List.mem_cons.mp hp with hp | hp
        · subst hp
          exact hhead v (by simp [hv])
        · exact hq p (by simp [hp]) v hv

/-- A failed `get_next_url` changes nothing. -/
theorem get_next_url_none_eq (cfg : CrawlerConfig) (s : FrontierState)
    (t : Time) (s' : FrontierState)
    (h : get_next_url cfg s t = (none, s')) : s' = s := by
  rw [get_next_url, get_next_url_dom] at h
  rcases hs : scanQueues cfg.request_delay s.last_access_time t
      s.domain_queues with _ | ⟨⟨u, d, q⟩⟩
  · rw [hs] at h
    exact (congrArg Prod.snd h).symm
  · rw [hs] at h
    simp at h

/-- A successful `get_next_url` pops a bounded entry and preserves the
depth invariant. -/
theorem get_next_url_depthBounded (k : Nat) (cfg : CrawlerConfig)
    (s : FrontierState) (t : Time) (u : UrlInfo) (s' : FrontierState)
    (hs : depthBounded s k)
    (h : get_next_url cfg s t = (some u, s')) :
    u.depth ≤ k ∧ depthBounded s' k := by
  rw [get_next_url, get_next_url_dom] at h
  rcases hsc : scanQueues cfg.request_delay s.last_access_time t
      s.domain_queues with _ | ⟨⟨u1, d1, q1⟩⟩
  · rw [hsc] at h
    simp at h
  · rw [hsc] at h
    simp only [Option.map, Prod.mk.injEq, Option.some.injEq] at h
    obtain ⟨h1, h2⟩ := h
    subst h1
    obtain ⟨hu1, hq1⟩ := scanQueues_depth k cfg.request_delay
      s.last_access_time t s.domain_queues u1 d1 q1 hs.1 hsc
    refine ⟨hu1, ?_⟩
    rw [← h2]
    exact ⟨hq1, dbSetStatus_depth k s.db _ _ hs.2⟩

/-- `mark_completed` preserves the depth invariant. -/
theorem mark_completed_depthBounded (k : Nat) (s : FrontierState)
    (url : String) (ok : Bool) (hs : depthBounded s k) :
    depthBounded (mark_completed s url ok) k :=
  ⟨hs.1, dbSetStatus_depth k s.db _ _ hs.2⟩

/-- Enqueuing any list of links at a bounded depth preserves the depth
invariant. -/
theorem add_discovered_links_depthBounded (k : Nat) :
    ∀ (links : List String) (s : FrontierState) (parent : String)
      (dep : Nat) (t : Time), depthBounded s k → dep ≤ k →
      depthBounded (add_discovered_links s links parent dep t) k := by
  intro links
  induction links with
  | nil =>
    intro s parent dep t hs _
    exact hs
  | cons l rest ih =>
    intro s parent dep t hs hdep
    rw [add_discovered_links] at *
    simp only [List.foldl_cons]
    exact ih _ parent dep t (add_url_depthBounded k s _ hs hdep) hdep

/-- C4: in every frontier state reachable during a crawl started from
seeds at depth 0, no queued entry and no persisted `URLRecord` has depth
greater than the configured `max_depth`: discovered links enter at
`depth + 1` only when the parent's depth is strictly below `max_depth`. -/
theorem c4_depth_invariant (cfg : CrawlerConfig) (s : FrontierState)
    (h : Reachable cfg s) : depthBounded s cfg.max_depth := by
  induction h with
  | init =>
    constructor
    · intro p hp
      simp [frontierInit] at hp
    · intro r hr
      simp [frontierInit] at hr
  | seed s0 url t _ ih =>
    exact add_url_depthBounded cfg.max_depth s0 _ ih (Nat.zero_le _)
  | stepSuccess s0 s' tnext tlinks links u hnext _ ih =>
    obtain ⟨hu, hs'⟩ :=
      get_next_url_depthBounded cfg.max_depth cfg s0 tnext u s' ih hnext
    apply mark_completed_depthBounded
    by_cases hdep : u.depth < cfg.max_depth
    · rw [if_pos hdep]
      exact add_discovered_links_depthBounded cfg.max_depth links s' u.url
        (u.depth + 1) tlinks hs' (by omega)
    · rw [if_neg hdep]
      exact hs'
  | stepFailure s0 s' tnext u hnext _ ih =>
    exact mark_completed_depthBounded cfg.max_depth s' u.url false
      (get_next_url_depthBounded cfg.max_depth cfg s0 tnext u s' ih hnext).2
  | stepIdle s0 s' tnext hnext _ ih =>
    rw [get_next_url_none_eq cfg s0 tnext s' hnext]
    exact ih

/-- C4 witness: the state reached by seeding `http://a.test/` into a
fresh frontier is reachable and satisfies the depth bound. -/
theorem c4_witness :
    depthBounded
      (add_url frontierInit
        { url := "http://a.test/", depth := 0, parent_url := none
          priority := 100, discovered_at := 0 }).2
      ({} : CrawlerConfig).max_depth :=
  c4_depth_invariant {} _
    (Reachable.seed frontierInit "http://a.test/" 0 Reachable.init)

end Crawler
